import Mathlib

/-!
Shallow embedding of the `aheev/my-portfolio` dashboard sources
(`src/assets/charts.js`, `src/unnamed/part_000`, `src/unnamed/part_001`)
together with a spec-modelled normalizer/aggregator for the offline ETL
step (`analyze.py`) that the repository documents but does not ship.
Pure JS functions become Lean functions; DOM writes become explicit
state values; thrown JS exceptions become `Except` errors.
-/

/-- Errors a JavaScript expression can throw in the modelled code; the only
one arising here is the TypeError from reading a property of `undefined`. -/
inductive JsError where
  | typeError
deriving DecidableEq

/-- ASCII lower-casing of a string, modelling JS `String.prototype.toLowerCase`. -/
def lowerStr (s : String) : String := String.mk (s.toList.map Char.toLower)

/-- ASCII upper-casing of a string, modelling JS `String.prototype.toUpperCase`. -/
def upperStr (s : String) : String := String.mk (s.toList.map Char.toUpper)

/-- Boolean test that `needle` occurs at the very start of `hay`. -/
def startsWithCh : List Char → List Char → Bool
  | _, [] => true
  | [], _ :: _ => false
  | c :: cs, d :: ds => c == d && startsWithCh cs ds

/-- Boolean substring test over character lists, modelling JS
`String.prototype.includes`. -/
def containsSub (hay needle : List Char) : Bool :=
  match hay with
  | [] => startsWithCh [] needle
  | c :: t => startsWithCh (c :: t) needle || containsSub t needle

/-- JS `a.includes(b)` on strings. -/
def strIncludes (s q : String) : Bool := containsSub s.toList q.toList

/-- Specification-side statement that `needle` is a contiguous substring of
`hay`: some split `pre ++ needle ++ post` exists. -/
def specContains (hay needle : List Char) : Prop :=
  ∃ pre post, hay = pre ++ needle ++ post

/-- Specification-side case-insensitive containment of query `q` in `field`. -/
def ciContains (field q : String) : Prop :=
  specContains (lowerStr field).toList (lowerStr q).toList

/-- The fixed 9-color base palette of `generatePalette` in `assets/charts.js`. -/
def basePalette : List String :=
  ["#4dc9f6", "#f67019", "#f53794", "#537bc4", "#acc236",
   "#166a8f", "#00a950", "#58595b", "#8549ba"]

/-- `generatePalette(n)` from `assets/charts.js`: pushes
`base[i % base.length]` for `i = 0 .. n-1`. -/
def generatePalette (n : Nat) : List String :=
  (List.range n).map (fun i => basePalette.getD (i % basePalette.length) "")

/-- One item of the `feed` array of `analytics.json` as consumed by
`app.renderFeed` / `app.getUniqueRepos` in `src/unnamed/part_001`. -/
structure FeedItem where
  source : String
  title : String
  subtitle : String
  date : Option String
  url : Option String
  meta : Option String
deriving DecidableEq

/-- The lower-cased query match of `app.renderFeed`: the item's title,
subtitle or source, lower-cased, must contain the lower-cased query. -/
def matchesQuery (q : String) (i : FeedItem) : Bool :=
  strIncludes (lowerStr i.title) (lowerStr q) ||
    strIncludes (lowerStr i.subtitle) (lowerStr q) ||
    strIncludes (lowerStr i.source) (lowerStr q)

/-- One rendered `log-row` anchor of `app.renderFeed`. -/
structure LogRow where
  time : String
  tagKind : String
  sourceLabel : String
  title : String
  status : String
  href : String
deriving DecidableEq

/-- Row construction of `app.renderFeed`: source badge defaults to the
GitHub tag with the subtitle as label, overridden for kernel/jira/blog
sources; JS falsy checks make the empty string behave like an absent field. -/
def mkRow (i : FeedItem) : LogRow :=
  let tag : String × String :=
    if strIncludes i.source "kernel" then ("tag-kernel", "LINUX")
    else if i.source == "jira" then ("tag-jira", "KAFKA")
    else if i.source == "blog" then ("tag-blog", "DEV.TO")
    else ("tag-github", i.subtitle)
  { time := match i.date with
      | none => "N/A"
      | some d => if d == "" then "N/A" else d
    tagKind := tag.1
    sourceLabel := tag.2
    title := i.title
    status := match i.meta with
      | none => "OK"
      | some m => if m == "" then "OK" else upperStr m
    href := match i.url with
      | none => "#"
      | some u => if u == "" then "#" else u }

/-- The placeholder HTML `app.renderFeed` writes when no item matches. -/
def noProcessesHtml : String :=
  "<div style=\"padding:20px; text-align:center; color:#8b949e;\">-- No processes found --</div>"

/-- Contents of the `log-feed` container after `app.renderFeed` runs:
either the placeholder markup or the list of rendered rows. -/
inductive FeedView where
  | placeholderMsg (html : String)
  | rows (rs : List LogRow)
deriving DecidableEq

/-- `app.renderFeed(query)` from `src/unnamed/part_001`: filters the feed by
the lower-cased query over title/subtitle/source, shows the placeholder when
nothing matches, and otherwise renders one row per surviving item in order. -/
def renderFeed (feed : List FeedItem) (query : String) : FeedView :=
  let items := feed.filter (fun i => matchesQuery query i)
  if items.length == 0 then FeedView.placeholderMsg noProcessesHtml
  else FeedView.rows (items.map mkRow)

/-- The `stats` object of `analytics.json` read by `app.render`. -/
structure StatsObj where
  github : Option Nat
  kernel : Option Nat
  jira : Option Nat
  blogs : Option Nat
deriving DecidableEq

/-- The throughput chart series of `analytics.json` (`data.chart`). -/
structure ThroughputSpec where
  labels : List String
  data : List Nat
deriving DecidableEq

/-- The analytics document as consumed by `app` in `src/unnamed/part_001`;
every top-level field may be absent from a partial document. -/
structure AppData where
  stats : Option StatsObj
  feed : Option (List FeedItem)
  chart : Option ThroughputSpec
  languages : Option (List (String × Nat))
deriving DecidableEq

/-- `app.render` from `src/unnamed/part_001`: reads `stats` fields (a missing
`stats` or `feed` object throws a TypeError), then renders the feed with the
empty query; `app.renderCharts` guards on `chart`/`languages` and cannot throw. -/
def appRender (d : AppData) : Except JsError FeedView :=
  match d.stats with
  | none => Except.error JsError.typeError
  | some _ =>
    match d.feed with
    | none => Except.error JsError.typeError
    | some f => Except.ok (renderFeed f "")

/-- Outcome of `fetch('data/analytics.json')` followed by `r.json()`:
a network failure, or a response with an `ok` flag and a body that either
parses to an `AppData` or throws while parsing. -/
inductive FetchOutcome where
  | networkError
  | response (ok : Bool) (body : Except JsError AppData)

/-- Whether the analytics document could not be fetched at all: a network
error or a non-OK HTTP response. -/
def fetchFailed : FetchOutcome → Bool
  | FetchOutcome.networkError => true
  | FetchOutcome.response ok _ => !ok

/-- The error banner `app.init` writes into `log-feed` when loading fails. -/
def offlineBanner : String :=
  "<div style=\"padding:20px; color:#ff7b72;\">ERROR: Failed to mount /data/analytics.json<br>System offline or initializing.</div>"

/-- Contents of the `log-feed` element after `app.init`. -/
inductive LogFeedContent where
  | empty
  | banner (html : String)
  | view (v : FeedView)
deriving DecidableEq

/-- Application state produced by `app.init`. -/
structure AppState where
  logFeed : LogFeedContent
  data : Option AppData
deriving DecidableEq

/-- `app.init` from `src/unnamed/part_001`: fetches the document inside a
try/catch; a network error, a non-OK response, a JSON parse error, or a throw
inside `render` all land in the catch block, which writes the offline banner.
The second component records whether an exception escaped to the caller. -/
def appInit (f : FetchOutcome) : AppState × Bool :=
  match f with
  | FetchOutcome.networkError =>
      ({ logFeed := LogFeedContent.banner offlineBanner, data := none }, false)
  | FetchOutcome.response ok body =>
      if ok then
        match body with
        | Except.error _ =>
            ({ logFeed := LogFeedContent.banner offlineBanner, data := none }, false)
        | Except.ok d =>
            match appRender d with
            | Except.error _ =>
                ({ logFeed := LogFeedContent.banner offlineBanner, data := some d }, false)
            | Except.ok v =>
                ({ logFeed := LogFeedContent.view v, data := some d }, false)
      else
        ({ logFeed := LogFeedContent.banner offlineBanner, data := none }, false)

/-- The `timeline` object of `analytics.json` as read by the chart code;
each series may be absent. -/
structure AnalyticsTimeline where
  months : Option (List String)
  github : Option (List Nat)
  jira : Option (List Nat)
  kernel : Option (List Nat)
  gitkernel : Option (List Nat)
deriving DecidableEq

/-- One entry of the `repos` array of `analytics.json`. -/
structure RepoEntry where
  name : String
  prs : Option Nat
  stars : Option Nat
deriving DecidableEq

/-- The analytics document as read by `initCharts`/`renderCharts`; the three
chart fields are optional. -/
structure Analytics where
  timeline : Option AnalyticsTimeline
  subsystems : Option (List (String × Nat))
  repos : Option (List RepoEntry)
deriving DecidableEq

/-- Data handed to the timeline line chart. -/
structure TimelineChartData where
  labels : List String
  github : List Nat
  jira : List Nat
  kernel : List Nat
  gitkernel : List Nat
deriving DecidableEq

/-- Data handed to the subsystems doughnut chart; `colors` is the palette
argument, absent in the `part_000` variant. -/
structure SubsChartData where
  labels : List String
  data : List Nat
  colors : Option (List String)
deriving DecidableEq

/-- Data handed to the repos bar chart; entries of `data` stay optional
because `part_000` passes `r.prs` through unguarded. -/
structure ReposChartData where
  labels : List String
  data : List (Option Nat)
  colors : Option (List String)
deriving DecidableEq

/-- The three global chart slots (`window.timelineChart` etc.). -/
structure ChartsState where
  timelineChart : Option TimelineChartData
  subsystemChart : Option SubsChartData
  reposChart : Option ReposChartData
deriving DecidableEq

/-- All chart slots empty. -/
def emptyCharts : ChartsState := ⟨none, none, none⟩

/-- `drawTimeline` from `assets/charts.js`: reading `tl.months` of an absent
timeline throws a TypeError; present timelines default each series to `[]`. -/
def drawTimeline : Option AnalyticsTimeline → Except JsError TimelineChartData
  | none => Except.error JsError.typeError
  | some tl => Except.ok
      { labels := tl.months.getD [], github := tl.github.getD [],
        jira := tl.jira.getD [], kernel := tl.kernel.getD [],
        gitkernel := tl.gitkernel.getD [] }

/-- `drawSubsystems` from `assets/charts.js`: `subsys || {}` tolerates an
absent object; colors come from `generatePalette(labels.length)`. -/
def drawSubsystems (subsys : Option (List (String × Nat))) :
    Except JsError SubsChartData :=
  let s := subsys.getD []
  Except.ok { labels := s.map (·.1), data := s.map (·.2),
              colors := some (generatePalette (s.map (·.1)).length) }

/-- `drawRepos` from `assets/charts.js`: `(repos || [])` tolerates an absent
array and `r.prs || 0` defaults each bar to zero. -/
def drawRepos (repos : Option (List RepoEntry)) : Except JsError ReposChartData :=
  let r := repos.getD []
  Except.ok { labels := r.map (·.name),
              data := r.map (fun x => some (x.prs.getD 0)),
              colors := some (generatePalette (r.map (·.name)).length) }

/-- Body of the `try` block of `initCharts`: the three draws run in order and
the first thrown error aborts the remaining draws, leaving their chart slots
unassigned. -/
def initChartsBody (a : Analytics) : ChartsState × Option JsError :=
  match drawTimeline a.timeline with
  | Except.error err => (emptyCharts, some err)
  | Except.ok t =>
    match drawSubsystems a.subsystems with
    | Except.error err =>
        ({ timelineChart := some t, subsystemChart := none, reposChart := none }, some err)
    | Except.ok sc =>
      match drawRepos a.repos with
      | Except.error err =>
          ({ timelineChart := some t, subsystemChart := some sc, reposChart := none }, some err)
      | Except.ok rc =>
          ({ timelineChart := some t, subsystemChart := some sc, reposChart := some rc }, none)

/-- `window.initCharts` from `assets/charts.js`: returns early on a missing
document, otherwise runs the draws inside try/catch; the Boolean records
whether an exception escaped to the caller (the catch makes it `false`). -/
def initCharts : Option Analytics → ChartsState × Bool
  | none => (emptyCharts, false)
  | some a => ((initChartsBody a).1, false)

/-- Body of the `try` block of `renderCharts` in `src/unnamed/part_000`:
`analytics.timeline` is destructured first, so an absent timeline throws
before any chart is created; `subsystems || {}` and `repos || []` are guarded. -/
def renderChartsBody (a : Analytics) : ChartsState × Option JsError :=
  match a.timeline with
  | none => (emptyCharts, some JsError.typeError)
  | some tl =>
    let t : TimelineChartData :=
      { labels := tl.months.getD [], github := tl.github.getD [],
        jira := tl.jira.getD [], kernel := tl.kernel.getD [],
        gitkernel := tl.gitkernel.getD [] }
    let subs := a.subsystems.getD []
    let sc : SubsChartData := { labels := subs.map (·.1), data := subs.map (·.2), colors := none }
    let repos := a.repos.getD []
    let rc : ReposChartData := { labels := repos.map (·.name), data := repos.map (·.prs), colors := none }
    ({ timelineChart := some t, subsystemChart := some sc, reposChart := some rc }, none)

/-- `renderCharts` from `src/unnamed/part_000`, with its surrounding
try/catch; the Boolean records whether an exception escaped (always `false`). -/
def renderCharts (a : Analytics) : ChartsState × Bool :=
  ((renderChartsBody a).1, false)

/-- A concrete partial analytics document: `timeline` absent while
`subsystems` and `repos` are present. -/
def cexDoc : Analytics :=
  { timeline := none, subsystems := some [("mm", 2)], repos := some [] }

/-- One repository card produced by `app.getUniqueRepos`. -/
structure RepoInfo where
  name : String
  url : String
  org : String
deriving DecidableEq

/-- JS `subtitle.split('/')[0]`: the portion of the string before the first
slash (the whole string when no slash occurs). -/
def orgOf (s : String) : String := String.mk (s.toList.takeWhile (fun c => c ≠ '/'))

/-- The repo card `app.getUniqueRepos` builds for a GitHub feed subtitle. -/
def mkGithubRepo (s : String) : RepoInfo :=
  { name := s, url := "https://github.com/" ++ s, org := orgOf s }

/-- The fixed kernel repo card inserted for kernel-sourced feed items. -/
def linuxRepo : RepoInfo :=
  { name := "linux.git",
    url := "https://git.kernel.org/pub/scm/linux/kernel/git/torvalds/linux.git/",
    org := "Linux Kernel" }

/-- The fixed Kafka repo card inserted for jira-sourced feed items. -/
def kafkaRepo : RepoInfo :=
  { name := "Apache Kafka", url := "https://kafka.apache.org/",
    org := "Apache Software Foundation" }

/-- Insertion-ordered JS `Map` of repo cards keyed by name. -/
abbrev RepoMap := List (String × RepoInfo)

/-- JS `map.has(k)`. -/
def mapHas (m : RepoMap) (k : String) : Bool := m.any (fun p => p.1 == k)

/-- JS `map.set(k, v)`: overwrites the value in place when the key exists,
otherwise appends at the end (insertion order preserved). -/
def mapSet (m : RepoMap) (k : String) (v : RepoInfo) : RepoMap :=
  if mapHas m k then m.map (fun p => if p.1 == k then (k, v) else p)
  else m ++ [(k, v)]

/-- Processing of one feed item inside `app.getUniqueRepos`: GitHub items
insert their subtitle once (skipping subtitle `"GitHub"`), kernel items set
the fixed `linux.git` card and jira items the fixed `Apache Kafka` card. -/
def repoStep (m : RepoMap) (i : FeedItem) : RepoMap :=
  let m1 := if i.source == "github" && i.subtitle != "GitHub" then
      (if mapHas m i.subtitle then m else mapSet m i.subtitle (mkGithubRepo i.subtitle))
    else m
  let m2 := if i.source == "kernel" then mapSet m1 "linux.git" linuxRepo else m1
  if i.source == "jira" then mapSet m2 "Apache Kafka" kafkaRepo else m2

/-- `app.getUniqueRepos` from `src/unnamed/part_001`: folds the feed through
the map and returns `Array.from(repos.values())`. -/
def getUniqueRepos (feed : List FeedItem) : List RepoInfo :=
  (feed.foldl repoStep []).map (·.2)

/-- Modelled from the spec: the telemetry source enum of the Event shape
produced by the out-of-scope ETL scripts (`fetch_contributions.py`,
`analyze.py`), which are not part of the shipped sources. -/
inductive EvSource where
  | github
  | kernel_commit
  | kernel_patch
  | issue_tracker
  | blog
deriving DecidableEq

/-- Modelled from the spec: one unit of activity produced by a source
adapter of the missing ETL step; the timestamp is a UTC calendar date. -/
structure Event where
  source : EvSource
  id : String
  year : Nat
  month : Nat
  day : Nat
  title : String
  subtitle : String
  url : Option String
  meta : Option String
deriving DecidableEq

/-- Absolute calendar-month index of an event's timestamp (month truncation). -/
def monthIdx (e : Event) : Nat := e.year * 12 + (e.month - 1)

/-- The deduplication key `(source, id)` of an event. -/
def evKey (e : Event) : EvSource × String := (e.source, e.id)

/-- Boolean key equality used by the dedup pass. -/
def sameKey (a b : Event) : Bool := a.source == b.source && a.id == b.id

/-- Modelled from the spec: last-write-wins insertion of the missing
normalizer — an event with an already-seen `(source, id)` replaces the stored
version in place, a fresh key is appended in fetch order. -/
def upsert (acc : List Event) (e : Event) : List Event :=
  if acc.any (fun x => sameKey x e) then acc.map (fun x => if sameKey x e then e else x)
  else acc ++ [e]

/-- Modelled from the spec: the deduplication pass of the missing normalizer,
collapsing events with identical `(source, id)` to the most recently fetched
version. -/
def dedupe (evs : List Event) : List Event := evs.foldl upsert []

/-- Fold of `Nat.min` over a list with a seed. -/
def natsMin (a : Nat) (l : List Nat) : Nat := l.foldl Nat.min a

/-- Fold of `Nat.max` over a list with a seed. -/
def natsMax (a : Nat) (l : List Nat) : Nat := l.foldl Nat.max a

/-- Earliest month index among the events (`0` for no events). -/
def minMonthIdx : List Event → Nat
  | [] => 0
  | e :: rest => natsMin (monthIdx e) (rest.map monthIdx)

/-- Latest month index among the events (`0` for no events). -/
def maxMonthIdx : List Event → Nat
  | [] => 0
  | e :: rest => natsMax (monthIdx e) (rest.map monthIdx)

/-- Per-source counters of one timeline month bucket. -/
structure SourceCounts where
  github : Nat
  kernel_commit : Nat
  kernel_patch : Nat
  issue_tracker : Nat
  blog : Nat
deriving DecidableEq

/-- Counter lookup by source. -/
def SourceCounts.get (c : SourceCounts) : EvSource → Nat
  | EvSource.github => c.github
  | EvSource.kernel_commit => c.kernel_commit
  | EvSource.kernel_patch => c.kernel_patch
  | EvSource.issue_tracker => c.issue_tracker
  | EvSource.blog => c.blog

/-- Number of events of source `s` whose timestamp truncates to month `m`. -/
def countSrcMonth (l : List Event) (m : Nat) (s : EvSource) : Nat :=
  l.countP (fun e => monthIdx e == m && e.source == s)

/-- The counters of month `m` over the event list. -/
def countsFor (l : List Event) (m : Nat) : SourceCounts :=
  { github := countSrcMonth l m EvSource.github,
    kernel_commit := countSrcMonth l m EvSource.kernel_commit,
    kernel_patch := countSrcMonth l m EvSource.kernel_patch,
    issue_tracker := countSrcMonth l m EvSource.issue_tracker,
    blog := countSrcMonth l m EvSource.blog }

/-- One month bucket of the TimelineSeries. -/
structure MonthBucket where
  month : Nat
  counts : SourceCounts
deriving DecidableEq

/-- Modelled from the spec: the bucketing pass of the missing normalizer —
months are generated gap-free from the earliest to the latest event month,
each bucket counting the events of that month per source; zero events give
an empty series. -/
def mkTimeline (l : List Event) : List MonthBucket :=
  match l with
  | [] => []
  | _ :: _ =>
    (List.range (maxMonthIdx l + 1 - minMonthIdx l)).map
      (fun k => { month := minMonthIdx l + k, counts := countsFor l (minMonthIdx l + k) })

/-- Modelled from the spec: `normalize(events)` of the missing normalizer,
returning the deduplicated events and the timeline bucketed from them. -/
def normalizeEvents (evs : List Event) : List Event × List MonthBucket :=
  (dedupe evs, mkTimeline (dedupe evs))

/-- Modelled from the spec: the `stats` mapping of the missing aggregator,
counting deduplicated events per source. -/
def stats (l : List Event) (s : EvSource) : Nat := l.countP (fun e => e.source == s)

/-- Pairwise-distinct dedup keys. -/
def evKeysNodup (l : List Event) : Prop := (l.map evKey).Nodup

/-- One RepoSummary of the spec's data model. -/
structure RepoSummary where
  name : String
  prCount : Nat
  org : String
deriving DecidableEq

/-- First-occurrence deduplication of a list of strings. -/
def firstDedupStr (l : List String) : List String :=
  l.foldl (fun acc s => if s ∈ acc then acc else acc ++ [s]) []

/-- Boolean test for a GitHub-sourced event. -/
def isGithubE (e : Event) : Bool := e.source == EvSource.github

/-- Modelled from the spec: the RepoSummary grouping of the missing
aggregator — GitHub events grouped by `subtitle`, each group counted into
`prCount`, with `org` the portion of the subtitle before the first slash. -/
def repoSummaries (l : List Event) : List RepoSummary :=
  (firstDedupStr ((l.filter isGithubE).map (fun e => e.subtitle))).map
    (fun s => { name := s,
                prCount := l.countP (fun e => isGithubE e && e.subtitle == s),
                org := orgOf s })

/-! Helper lemmas about the substring test. -/

theorem startsWithCh_iff (hay needle : List Char) :
    startsWithCh hay needle = true ↔ ∃ post, hay = needle ++ post := by
  induction needle generalizing hay with
  | nil => simp [startsWithCh]
  | cons d ds ih =>
    cases hay with
    | nil => simp [startsWithCh]
    | cons c cs =>
      simp only [startsWithCh, Bool.and_eq_true, beq_iff_eq, ih, List.cons_append,
        List.cons.injEq]
      constructor
      · rintro ⟨rfl, post, rfl⟩
        exact ⟨post, rfl, rfl⟩
      · rintro ⟨post, rfl, rfl⟩
        exact ⟨rfl, post, rfl⟩

theorem containsSub_iff (hay needle : List Char) :
    containsSub hay needle = true ↔ specContains hay needle := by
  induction hay with
  | nil =>
    simp only [containsSub, startsWithCh_iff, specContains]
    constructor
    · rintro ⟨post, h⟩
      exact ⟨[], post, by simpa using h⟩
    · rintro ⟨pre, post, h⟩
      exact ⟨post ++ pre, by simp at h ⊢; tauto⟩
  | cons c t ih =>
    simp only [containsSub, Bool.or_eq_true, startsWithCh_iff, ih, specContains]
    constructor
    · rintro (⟨post, h⟩ | ⟨pre, post, h⟩)
      · exact ⟨[], post, by simpa using h⟩
      · exact ⟨c :: pre, post, by simp [h]⟩
    · rintro ⟨pre, post, h⟩
      cases pre with
      | nil => exact Or.inl ⟨post, by simpa using h⟩
      | cons p ps =>
        simp only [List.cons_append, List.cons.injEq] at h
        exact Or.inr ⟨ps, post, h.2⟩

theorem containsSub_nil_needle (hay : List Char) : containsSub hay [] = true := by
  cases hay <;> simp [containsSub, startsWithCh]

theorem matchesQuery_empty (i : FeedItem) : matchesQuery "" i = true := by
  simp only [matchesQuery, strIncludes, Bool.or_eq_true]
  left; left
  have h : (lowerStr "").toList = [] := rfl
  rw [h]
  exact containsSub_nil_needle _

/-- Claim C10: `generatePalette(n)` returns exactly `n` color strings, the
`i`-th being the fixed 9-color base palette at index `i mod 9`; it is a total
deterministic function. -/
theorem generatePalette_length_mod (n i : Nat) :
    (generatePalette n).length = n ∧
      basePalette.length = 9 ∧
      (i < n → (generatePalette n)[i]? = some (basePalette.getD (i % 9) "")) := by
  refine ⟨by simp [generatePalette], rfl, fun hi => ?_⟩
  have h9 : basePalette.length = 9 := rfl
  simp only [generatePalette, List.getElem?_map, List.getElem?_range hi,
    Option.map_some', h9]

/-- Witness for C10 at `n = 12`, `i = 10`. -/
theorem generatePalette_length_mod_witness :
    (generatePalette 12).length = 12 ∧
      (generatePalette 12)[10]? = some (basePalette.getD (10 % 9) "") := by
  have h := generatePalette_length_mod 12 10
  exact ⟨h.1, h.2.2 (by decide)⟩

/-- Claim C9: when no feed item matches the query, `app.renderFeed` writes the
explicit `-- No processes found --` placeholder markup into the feed container
instead of leaving it empty. -/
theorem renderFeed_no_match_placeholder (feed : List FeedItem) (q : String)
    (h : feed.filter (fun i => matchesQuery q i) = []) :
    renderFeed feed q = FeedView.placeholderMsg noProcessesHtml ∧
      strIncludes noProcessesHtml "-- No processes found --" = true := by
  refine ⟨?_, by decide⟩
  simp [renderFeed, h]

/-- Witness for C9: a concrete feed and query with no match. -/
theorem renderFeed_no_match_placeholder_witness :
    renderFeed [{ source := "github", title := "Add retry", subtitle := "org/repo",
                  date := none, url := none, meta := none }] "zzz"
      = FeedView.placeholderMsg noProcessesHtml :=
  (renderFeed_no_match_placeholder _ "zzz" (by decide)).1

/-- Claim C2: whenever the analytics document cannot be fetched at all
(network error or non-OK HTTP response), `app.init` catches the failure, lets
no exception escape, and renders the explicit data-unavailable banner into
the `log-feed` element rather than leaving it empty. -/
theorem appInit_fetch_failure_banner (f : FetchOutcome) (h : fetchFailed f = true) :
    (appInit f).1.logFeed = LogFeedContent.banner offlineBanner ∧
      (appInit f).2 = false ∧
      (appInit f).1.logFeed ≠ LogFeedContent.empty := by
  cases f with
  | networkError => exact ⟨rfl, rfl, by simp [appInit]⟩
  | response ok body =>
    have hok : ok = false := by simpa [fetchFailed] using h
    subst hok
    exact ⟨rfl, rfl, by simp [appInit]⟩

/-- Witness for C2 at a concrete non-OK HTTP response. -/
theorem appInit_fetch_failure_banner_witness :
    (appInit (FetchOutcome.response false (Except.error JsError.typeError))).1.logFeed
      = LogFeedContent.banner offlineBanner :=
  (appInit_fetch_failure_banner
    (FetchOutcome.response false (Except.error JsError.typeError)) rfl).1

/-- Counterexample to claim C1 as stated: in the document `cexDoc` the field
`timeline` is absent while `subsystems` is present, yet neither `initCharts`
nor `renderCharts` draws the subsystems chart — the TypeError thrown while
reading the absent timeline aborts the try block before the later draws. -/
theorem charts_missing_fields_cex :
    ¬ (∀ a : Analytics, (a.timeline = none ∨ a.subsystems = none ∨ a.repos = none) →
        (a.subsystems.isSome = true →
          ((initCharts (some a)).1.subsystemChart.isSome = true ∧
            (renderCharts a).1.subsystemChart.isSome = true))) := by
  intro h
  have hc := h cexDoc (Or.inl rfl) (by decide)
  exact absurd hc.1 (by decide)

/-- Claim C1 amended: no exception ever escapes `initCharts`/`renderCharts`;
when `timeline` is present, absent `subsystems`/`repos` are treated as empty
and all three charts are drawn; but when `timeline` is absent the caught
TypeError prevents every chart from being drawn, including those for the
fields that are present. -/
theorem charts_missing_fields_amended (a : Analytics) :
    (initCharts (some a)).2 = false ∧
      (renderCharts a).2 = false ∧
      (initCharts none).2 = false ∧
      (a.timeline.isSome = true →
        ((initCharts (some a)).1.timelineChart.isSome = true ∧
          (initCharts (some a)).1.subsystemChart.isSome = true ∧
          (initCharts (some a)).1.reposChart.isSome = true ∧
          (renderCharts a).1.timelineChart.isSome = true ∧
          (renderCharts a).1.subsystemChart.isSome = true ∧
          (renderCharts a).1.reposChart.isSome = true)) ∧
      (a.timeline = none →
        (initCharts (some a)).1 = emptyCharts ∧ (renderCharts a).1 = emptyCharts) := by
  refine ⟨rfl, rfl, rfl, fun hsome => ?_, fun hnone => ?_⟩
  · obtain ⟨tl, htl⟩ := Option.isSome_iff_exists.mp hsome
    simp [initCharts, initChartsBody, renderCharts, renderChartsBody, htl,
      drawTimeline, drawSubsystems, drawRepos]
  · simp [initCharts, initChartsBody, renderCharts, renderChartsBody, hnone,
      drawTimeline]

/-- Witness for C1's amended theorem at a document with `subsystems` and
`repos` absent but `timeline` present. -/
theorem charts_missing_fields_amended_witness :
    (initCharts (some { timeline := some ⟨some ["2024-01"], some [3], none, none, none⟩,
                        subsystems := none, repos := none })).1.subsystemChart.isSome = true ∧
      (initCharts (some { timeline := none, subsystems := some [("mm", 2)],
                          repos := none })).1 = emptyCharts :=
  ⟨((charts_missing_fields_amended
      { timeline := some ⟨some ["2024-01"], some [3], none, none, none⟩,
        subsystems := none, repos := none }).2.2.2.1 rfl).2.1,
    ((charts_missing_fields_amended
      { timeline := none, subsystems := some [("mm", 2)],
        repos := none }).2.2.2.2 rfl).1⟩

/-- Claim C3: `app.renderFeed` displays exactly the feed items whose title,
subtitle or source contains the query case-insensitively, in feed order;
the Boolean filter agrees with the specified containment relation, the
surviving items form a sublist of the feed, and the empty query keeps
every item. -/
theorem renderFeed_filter_spec (feed : List FeedItem) (q : String) :
    (∀ i : FeedItem, matchesQuery q i = true ↔
       (ciContains i.title q ∨ ciContains i.subtitle q ∨ ciContains i.source q)) ∧
      List.Sublist (feed.filter (fun i => matchesQuery q i)) feed ∧
      (q = "" → feed.filter (fun i => matchesQuery q i) = feed) ∧
      (feed.filter (fun i => matchesQuery q i) = [] →
        renderFeed feed q = FeedView.placeholderMsg noProcessesHtml) ∧
      (feed.filter (fun i => matchesQuery q i) ≠ [] →
        renderFeed feed q
          = FeedView.rows ((feed.filter (fun i => matchesQuery q i)).map mkRow)) := by
  refine ⟨fun i => ?_, List.filter_sublist feed, fun hq => ?_, fun h => ?_, fun h => ?_⟩
  · simp only [matchesQuery, strIncludes, Bool.or_eq_true, containsSub_iff, ciContains]
    tauto
  · subst hq
    exact List.filter_eq_self.mpr (fun i _ => matchesQuery_empty i)
  · simp [renderFeed, h]
  · simp [renderFeed, List.length_eq_zero, h]

/-- Witness for C3 at a concrete feed and queries. -/
theorem renderFeed_filter_spec_witness :
    renderFeed [⟨"kernel", "sched: fix latency", "linux", none, none, none⟩,
                ⟨"github", "Add retry", "org/repo", none, none, none⟩] "sched"
        = FeedView.rows
            (([⟨"kernel", "sched: fix latency", "linux", none, none, none⟩,
               ⟨"github", "Add retry", "org/repo", none, none, none⟩].filter
                (fun i => matchesQuery "sched" i)).map mkRow) ∧
      [⟨"kernel", "sched: fix latency", "linux", none, none, none⟩,
       ⟨"github", "Add retry", "org/repo", none, none, none⟩].filter
          (fun i => matchesQuery "" i)
        = [⟨"kernel", "sched: fix latency", "linux", none, none, none⟩,
           ⟨"github", "Add retry", "org/repo", none, none, none⟩] :=
  ⟨(renderFeed_filter_spec
      [⟨"kernel", "sched: fix latency", "linux", none, none, none⟩,
       ⟨"github", "Add retry", "org/repo", none, none, none⟩] "sched").2.2.2.2 (by decide),
    (renderFeed_filter_spec
      [⟨"kernel", "sched: fix latency", "linux", none, none, none⟩,
       ⟨"github", "Add retry", "org/repo", none, none, none⟩] "").2.2.1 rfl⟩

/-! Helper lemmas about the insertion-ordered map of `getUniqueRepos`. -/

theorem mapSet_mem (m : RepoMap) (k : String) (v : RepoInfo) (p : String × RepoInfo)
    (hp : p ∈ mapSet m k v) : p ∈ m ∨ p = (k, v) := by
  unfold mapSet at hp
  by_cases h : mapHas m k
  · rw [if_pos h] at hp
    obtain ⟨q, hq, hfq⟩ := List.mem_map.mp hp
    by_cases hk : q.1 == k
    · rw [if_pos hk] at hfq
      exact Or.inr hfq.symm
    · rw [if_neg hk] at hfq
      exact Or.inl (hfq ▸ hq)
  · rw [if_neg h] at hp
    rcases List.mem_append.mp hp with h1 | h2
    · exact Or.inl h1
    · exact Or.inr (by simpa using h2)

theorem mapHas_iff (m : RepoMap) (k : String) :
    mapHas m k = true ↔ k ∈ m.map (fun p => p.1) := by
  simp [mapHas, List.any_eq_true, List.mem_map, beq_iff_eq]

theorem mapSet_keys (m : RepoMap) (k : String) (v : RepoInfo) :
    (mapSet m k v).map (fun p => p.1)
      = if mapHas m k then m.map (fun p => p.1) else m.map (fun p => p.1) ++ [k] := by
  unfold mapSet
  by_cases h : mapHas m k
  · rw [if_pos h, if_pos h, List.map_map]
    refine List.map_congr_left (fun p _ => ?_)
    by_cases hk : p.1 = k
    · simp [hk]
    · simp [hk]
  · rw [if_neg h, if_neg h]
    simp

theorem mapSet_keysNodup (m : RepoMap) (k : String) (v : RepoInfo)
    (h : (m.map (fun p => p.1)).Nodup) :
    ((mapSet m k v).map (fun p => p.1)).Nodup := by
  rw [mapSet_keys]
  by_cases hk : mapHas m k
  · simpa [hk] using h
  · have hnotin : k ∉ m.map (fun p => p.1) := fun hmem => hk ((mapHas_iff m k).mpr hmem)
    simp [hk, List.nodup_append, h, hnotin]

theorem repoStep_mem_gh (m : RepoMap) (i : FeedItem) (p : String × RepoInfo)
    (hp : p ∈ (if i.source == "github" && i.subtitle != "GitHub" then
        (if mapHas m i.subtitle then m else mapSet m i.subtitle (mkGithubRepo i.subtitle))
      else m)) :
    p ∈ m ∨ (i.source = "github" ∧ i.subtitle ≠ "GitHub" ∧
      p = (i.subtitle, mkGithubRepo i.subtitle)) := by
  split at hp
  case isTrue h =>
    rw [Bool.and_eq_true] at h
    obtain ⟨h1, h2⟩ := h
    split at hp
    · exact Or.inl hp
    · rcases mapSet_mem _ _ _ _ hp with hm | hm
      · exact Or.inl hm
      · exact Or.inr ⟨by simpa using h1, by simpa using h2, hm⟩
  case isFalse h => exact Or.inl hp

theorem repoStep_mem (m : RepoMap) (i : FeedItem) (p : String × RepoInfo)
    (hp : p ∈ repoStep m i) :
    p ∈ m ∨ p = ("linux.git", linuxRepo) ∨ p = ("Apache Kafka", kafkaRepo) ∨
      (i.source = "github" ∧ i.subtitle ≠ "GitHub" ∧
        p = (i.subtitle, mkGithubRepo i.subtitle)) := by
  unfold repoStep at hp
  dsimp only at hp
  split at hp
  case isTrue =>
    rcases mapSet_mem _ _ _ _ hp with hp2 | hp2
    · split at hp2
      case isTrue =>
        rcases mapSet_mem _ _ _ _ hp2 with hp3 | hp3
        · rcases repoStep_mem_gh m i p hp3 with h | h
          · exact Or.inl h
          · exact Or.inr (Or.inr (Or.inr h))
        · exact Or.inr (Or.inl hp3)
      case isFalse =>
        rcases repoStep_mem_gh m i p hp2 with h | h
        · exact Or.inl h
        · exact Or.inr (Or.inr (Or.inr h))
    · exact Or.inr (Or.inr (Or.inl hp2))
  case isFalse =>
    split at hp
    case isTrue =>
      rcases mapSet_mem _ _ _ _ hp with hp3 | hp3
      · rcases repoStep_mem_gh m i p hp3 with h | h
        · exact Or.inl h
        · exact Or.inr (Or.inr (Or.inr h))
      · exact Or.inr (Or.inl hp3)
    case isFalse =>
      rcases repoStep_mem_gh m i p hp with h | h
      · exact Or.inl h
      · exact Or.inr (Or.inr (Or.inr h))

theorem repoStep_keysNodup (m : RepoMap) (i : FeedItem)
    (h : (m.map (fun p => p.1)).Nodup) :
    ((repoStep m i).map (fun p => p.1)).Nodup := by
  unfold repoStep
  dsimp only
  have t1 : (((if i.source == "github" && i.subtitle != "GitHub" then
      (if mapHas m i.subtitle then m else mapSet m i.subtitle (mkGithubRepo i.subtitle))
    else m)).map (fun p => p.1)).Nodup := by
    split
    · split
      · exact h
      · exact mapSet_keysNodup _ _ _ h
    · exact h
  split
  · apply mapSet_keysNodup
    split
    · exact mapSet_keysNodup _ _ _ t1
    · exact t1
  · split
    · exact mapSet_keysNodup _ _ _ t1
    · exact t1

theorem foldl_repoStep_mem (l : List FeedItem) :
    ∀ (acc : RepoMap) (p : String × RepoInfo), p ∈ l.foldl repoStep acc →
      p ∈ acc ∨ p = ("linux.git", linuxRepo) ∨ p = ("Apache Kafka", kafkaRepo) ∨
        ∃ i ∈ l, i.source = "github" ∧ i.subtitle ≠ "GitHub" ∧
          p = (i.subtitle, mkGithubRepo i.subtitle) := by
  induction l with
  | nil => exact fun acc p hp => Or.inl hp
  | cons i l ih =>
    intro acc p hp
    rcases ih (repoStep acc i) p hp with h1 | h1 | h1 | ⟨j, hj, hprop⟩
    · rcases repoStep_mem acc i p h1 with h2 | h2 | h2 | h2
      · exact Or.inl h2
      · exact Or.inr (Or.inl h2)
      · exact Or.inr (Or.inr (Or.inl h2))
      · exact Or.inr (Or.inr (Or.inr ⟨i, List.mem_cons_self i l, h2⟩))
    · exact Or.inr (Or.inl h1)
    · exact Or.inr (Or.inr (Or.inl h1))
    · exact Or.inr (Or.inr (Or.inr ⟨j, List.mem_cons_of_mem i hj, hprop⟩))

theorem foldl_repoStep_keysNodup (l : List FeedItem) :
    ∀ acc : RepoMap, (acc.map (fun p => p.1)).Nodup →
      ((l.foldl repoStep acc).map (fun p => p.1)).Nodup := by
  induction l with
  | nil => exact fun acc h => h
  | cons i l ih => exact fun acc h => ih (repoStep acc i) (repoStep_keysNodup acc i h)

theorem foldl_repoStep_names (l : List FeedItem) :
    ∀ acc : RepoMap, (∀ p ∈ acc, (p.2).name = p.1) →
      ∀ p ∈ l.foldl repoStep acc, (p.2).name = p.1 := by
  induction l with
  | nil => exact fun acc h => h
  | cons i l ih =>
    intro acc h
    refine ih (repoStep acc i) (fun p hp => ?_)
    rcases repoStep_mem acc i p hp with h2 | h2 | h2 | ⟨_, _, h2⟩
    · exact h p h2
    · subst h2; rfl
    · subst h2; rfl
    · subst h2; rfl

/-- Claim C8: `app.getUniqueRepos` returns pairwise-distinct repository
names — hence at most one entry per GitHub subtitle and at most one
`linux.git` / `Apache Kafka` entry — no entry is named `GitHub`, and every
entry is either one of the two fixed cards or built from a GitHub feed item's
subtitle with `org` the portion of the subtitle before the first slash. -/
theorem getUniqueRepos_unique_names (feed : List FeedItem) :
    ((getUniqueRepos feed).map (fun r => r.name)).Nodup ∧
      (∀ s : String, ((getUniqueRepos feed).map (fun r => r.name)).count s ≤ 1) ∧
      (∀ r ∈ getUniqueRepos feed,
        r.name ≠ "GitHub" ∧
          (r = linuxRepo ∨ r = kafkaRepo ∨
            ∃ i ∈ feed, i.source = "github" ∧ i.subtitle ≠ "GitHub" ∧
              r = mkGithubRepo i.subtitle ∧ r.org = orgOf r.name)) := by
  have hnames : ∀ p ∈ feed.foldl repoStep [], (p.2).name = p.1 :=
    foldl_repoStep_names feed [] (by simp)
  have hkeys : ((feed.foldl repoStep []).map (fun p => p.1)).Nodup :=
    foldl_repoStep_keysNodup feed [] (by simp)
  have hmapeq : (getUniqueRepos feed).map (fun r => r.name)
      = (feed.foldl repoStep []).map (fun p => p.1) := by
    unfold getUniqueRepos
    rw [List.map_map]
    exact List.map_congr_left (fun p hp => hnames p hp)
  have hnodup : ((getUniqueRepos feed).map (fun r => r.name)).Nodup := hmapeq ▸ hkeys
  refine ⟨hnodup, fun s => List.nodup_iff_count_le_one.mp hnodup s, fun r hr => ?_⟩
  obtain ⟨p, hp, hpr⟩ := List.mem_map.mp hr
  rcases foldl_repoStep_mem feed [] p hp with h | h | h | ⟨i, hi, h1, h2, h3⟩
  · simp at h
  · have hr2 : r = linuxRepo := by rw [← hpr, h]
    subst hr2
    exact ⟨by decide, Or.inl rfl⟩
  · have hr2 : r = kafkaRepo := by rw [← hpr, h]
    subst hr2
    exact ⟨by decide, Or.inr (Or.inl rfl)⟩
  · have hr2 : r = mkGithubRepo i.subtitle := by rw [← hpr, h3]
    subst hr2
    exact ⟨h2, Or.inr (Or.inr ⟨i, hi, h1, h2, rfl, rfl⟩)⟩

/-- Witness for C8 at a concrete feed with a duplicate GitHub subtitle, a
kernel event and an excluded `GitHub` subtitle. -/
theorem getUniqueRepos_unique_names_witness :
    ((getUniqueRepos
        [⟨"github", "Add retry", "org/repoA", none, none, none⟩,
         ⟨"kernel", "sched fix", "linux", none, none, none⟩,
         ⟨"github", "Follow-up", "org/repoA", none, none, none⟩,
         ⟨"github", "Starred", "GitHub", none, none, none⟩]).map (fun r => r.name)).Nodup ∧
      linuxRepo.name ≠ "GitHub" :=
  ⟨(getUniqueRepos_unique_names _).1,
    ((getUniqueRepos_unique_names
        [⟨"github", "Add retry", "org/repoA", none, none, none⟩,
         ⟨"kernel", "sched fix", "linux", none, none, none⟩,
         ⟨"github", "Follow-up", "org/repoA", none, none, none⟩,
         ⟨"github", "Starred", "GitHub", none, none, none⟩]).2.2 linuxRepo (by decide)).1⟩

/-! Helper lemmas about the spec-modelled deduplication pass. -/

theorem sameKey_iff (a b : Event) : sameKey a b = true ↔ evKey a = evKey b := by
  simp [sameKey, evKey, Bool.and_eq_true, beq_iff_eq, Prod.ext_iff]

theorem any_sameKey_iff (acc : List Event) (e : Event) :
    acc.any (fun x => sameKey x e) = true ↔ evKey e ∈ acc.map evKey := by
  simp [List.any_eq_true, sameKey_iff, List.mem_map]

theorem upsert_keysNodup (acc : List Event) (e : Event)
    (h : (acc.map evKey).Nodup) : ((upsert acc e).map evKey).Nodup := by
  unfold upsert
  split
  case isTrue hhas =>
    rw [List.map_map]
    have : acc.map (evKey ∘ fun x => if sameKey x e then e else x) = acc.map evKey := by
      refine List.map_congr_left (fun x _ => ?_)
      by_cases hx : sameKey x e
      · simp only [Function.comp_apply, hx, if_pos]
        exact ((sameKey_iff x e).mp hx).symm
      · simp [Function.comp_apply, hx]
    rw [this]
    exact h
  case isFalse hhas =>
    have hnotin : evKey e ∉ acc.map evKey := fun hmem =>
      hhas ((any_sameKey_iff acc e).mpr hmem)
    simp [List.nodup_append, h, hnotin]

theorem dedupe_keysNodup (l : List Event) : evKeysNodup (dedupe l) := by
  unfold evKeysNodup dedupe
  have main : ∀ acc : List Event, (acc.map evKey).Nodup →
      ((l.foldl upsert acc).map evKey).Nodup := by
    induction l with
    | nil => exact fun acc h => h
    | cons e l ih => exact fun acc h => ih (upsert acc e) (upsert_keysNodup acc e h)
  exact main [] (by simp)

theorem foldl_upsert_append (l : List Event) :
    ∀ acc : List Event, ((acc ++ l).map evKey).Nodup → l.foldl upsert acc = acc ++ l := by
  induction l with
  | nil => intro acc _; simp
  | cons e l ih =>
    intro acc h
    have hsplit : (acc ++ e :: l).map evKey
        = acc.map evKey ++ evKey e :: l.map evKey := by simp
    rw [hsplit] at h
    have hnotin : evKey e ∉ acc.map evKey := by
      rw [List.nodup_append] at h
      exact fun hmem => h.2.2 hmem (List.mem_cons_self _ _)
    have hup : upsert acc e = acc ++ [e] := by
      unfold upsert
      rw [if_neg]
      intro hany
      exact hnotin ((any_sameKey_iff acc e).mp hany)
    have hresh : (((acc ++ [e]) ++ l).map evKey).Nodup := by
      have : (acc ++ [e]) ++ l = acc ++ e :: l := by simp
      rw [this, hsplit]
      exact h
    calc (e :: l).foldl upsert acc = l.foldl upsert (upsert acc e) := rfl
      _ = l.foldl upsert (acc ++ [e]) := by rw [hup]
      _ = (acc ++ [e]) ++ l := ih (acc ++ [e]) hresh
      _ = acc ++ e :: l := by simp

theorem dedupe_of_keysNodup (l : List Event) (h : evKeysNodup l) : dedupe l = l := by
  have := foldl_upsert_append l [] (by simpa [evKeysNodup] using h)
  simpa [dedupe] using this

/-- Claim C6: the spec-modelled `normalize` is idempotent — it returns an
already-deduplicated sequence unchanged, and running it on its own output
changes nothing. -/
theorem normalizeEvents_idempotent (evs : List Event) :
    (evKeysNodup evs → (normalizeEvents evs).1 = evs) ∧
      normalizeEvents ((normalizeEvents evs).1) = normalizeEvents evs := by
  constructor
  · intro h
    exact dedupe_of_keysNodup evs h
  · have hd : dedupe (dedupe evs) = dedupe evs :=
      dedupe_of_keysNodup _ (dedupe_keysNodup evs)
    simp [normalizeEvents, hd]

/-- Witness for C6 at a concrete two-event already-deduplicated sequence. -/
theorem normalizeEvents_idempotent_witness :
    (normalizeEvents
        [⟨EvSource.github, "1", 2024, 1, 15, "t1", "org/repoA", none, none⟩,
         ⟨EvSource.issue_tracker, "3", 2024, 2, 1, "t2", "", none, none⟩]).1
      = [⟨EvSource.github, "1", 2024, 1, 15, "t1", "org/repoA", none, none⟩,
         ⟨EvSource.issue_tracker, "3", 2024, 2, 1, "t2", "", none, none⟩] :=
  (normalizeEvents_idempotent
      [⟨EvSource.github, "1", 2024, 1, 15, "t1", "org/repoA", none, none⟩,
       ⟨EvSource.issue_tracker, "3", 2024, 2, 1, "t2", "", none, none⟩]).1
    (by unfold evKeysNodup; decide)

/-! Helper lemmas about month bounds and the spec-modelled timeline. -/

theorem natsMin_le_init (l : List Nat) : ∀ a : Nat, natsMin a l ≤ a := by
  induction l with
  | nil => exact fun a => Nat.le_refl a
  | cons x l ih =>
    intro a
    have h1 : natsMin (Nat.min a x) l ≤ Nat.min a x := ih (Nat.min a x)
    exact Nat.le_trans h1 (Nat.min_le_left a x)

theorem natsMin_le_mem (l : List Nat) : ∀ a x : Nat, x ∈ l → natsMin a l ≤ x := by
  induction l with
  | nil => intro a x hx; cases hx
  | cons y l ih =>
    intro a x hx
    rcases List.mem_cons.mp hx with rfl | hx2
    · have h1 : natsMin (Nat.min a x) l ≤ Nat.min a x := natsMin_le_init l (Nat.min a x)
      exact Nat.le_trans h1 (Nat.min_le_right a x)
    · exact ih (Nat.min a y) x hx2

theorem init_le_natsMax (l : List Nat) : ∀ a : Nat, a ≤ natsMax a l := by
  induction l with
  | nil => exact fun a => Nat.le_refl a
  | cons x l ih =>
    intro a
    have h1 : Nat.max a x ≤ natsMax (Nat.max a x) l := ih (Nat.max a x)
    exact Nat.le_trans (Nat.le_max_left a x) h1

theorem mem_le_natsMax (l : List Nat) : ∀ a x : Nat, x ∈ l → x ≤ natsMax a l := by
  induction l with
  | nil => intro a x hx; cases hx
  | cons y l ih =>
    intro a x hx
    rcases List.mem_cons.mp hx with rfl | hx2
    · have h1 : Nat.max a x ≤ natsMax (Nat.max a x) l := init_le_natsMax l (Nat.max a x)
      exact Nat.le_trans (Nat.le_max_right a x) h1
    · exact ih (Nat.max a y) x hx2

theorem monthIdx_bounds (l : List Event) (e : Event) (he : e ∈ l) :
    minMonthIdx l ≤ monthIdx e ∧ monthIdx e ≤ maxMonthIdx l := by
  cases l with
  | nil => cases he
  | cons f rest =>
    rcases List.mem_cons.mp he with rfl | hmem
    · exact ⟨natsMin_le_init _ _, init_le_natsMax _ _⟩
    · have hin : monthIdx e ∈ rest.map monthIdx := List.mem_map.mpr ⟨e, hmem, rfl⟩
      exact ⟨natsMin_le_mem _ _ _ hin, mem_le_natsMax _ _ _ hin⟩

theorem countsFor_get (l : List Event) (m : Nat) (s : EvSource) :
    (countsFor l m).get s = countSrcMonth l m s := by
  cases s <;> rfl

theorem upsert_length_ge (acc : List Event) (e : Event) :
    acc.length ≤ (upsert acc e).length := by
  unfold upsert
  split
  · simp
  · simp

theorem foldl_upsert_length_ge (l : List Event) :
    ∀ acc : List Event, acc.length ≤ (l.foldl upsert acc).length := by
  induction l with
  | nil => exact fun acc => Nat.le_refl _
  | cons e l ih =>
    intro acc
    exact Nat.le_trans (upsert_length_ge acc e) (ih (upsert acc e))

theorem dedupe_ne_nil (evs : List Event) (h : evs ≠ []) : dedupe evs ≠ [] := by
  cases evs with
  | nil => exact absurd rfl h
  | cons e rest =>
    have h1 : (upsert [] e).length ≤ (dedupe (e :: rest)).length :=
      foldl_upsert_length_ge rest (upsert [] e)
    have h2 : (upsert [] e).length = 1 := rfl
    have h3 : 0 < (dedupe (e :: rest)).length := by omega
    exact List.ne_nil_of_length_pos h3

theorem mkTimeline_props (l : List Event) (hl : l ≠ []) :
    ((mkTimeline l).map (fun b => b.month)
      = List.range' (minMonthIdx l) (maxMonthIdx l + 1 - minMonthIdx l)) ∧
      (∀ m : Nat, minMonthIdx l ≤ m → m ≤ maxMonthIdx l →
        ∃ b ∈ mkTimeline l, b.month = m ∧
          ∀ s : EvSource, b.counts.get s = countSrcMonth l m s) ∧
      (∀ b ∈ mkTimeline l, ∀ s : EvSource,
        b.counts.get s = countSrcMonth l b.month s) := by
  cases l with
  | nil => exact absurd rfl hl
  | cons e rest =>
    have hminmax : minMonthIdx (e :: rest) ≤ maxMonthIdx (e :: rest) := by
      have h := monthIdx_bounds (e :: rest) e (List.mem_cons_self e rest)
      omega
    refine ⟨?_, ?_, ?_⟩
    · show ((List.range _).map _).map _ = _
      rw [List.map_map, List.range'_eq_map_range]
      rfl
    · intro m hlo hhi
      refine ⟨{ month := minMonthIdx (e :: rest) + (m - minMonthIdx (e :: rest)),
                counts := countsFor (e :: rest)
                  (minMonthIdx (e :: rest) + (m - minMonthIdx (e :: rest))) },
        List.mem_map.mpr ⟨m - minMonthIdx (e :: rest),
          List.mem_range.mpr (by omega), rfl⟩, by simp; omega, ?_⟩
      intro s
      have hm : minMonthIdx (e :: rest) + (m - minMonthIdx (e :: rest)) = m := by omega
      rw [countsFor_get, hm]
    · intro b hb s
      obtain ⟨k, _, hk⟩ := List.mem_map.mp hb
      rw [← hk]
      exact countsFor_get _ _ s

/-- Claim C5: for a non-empty event set the spec-modelled normalization
produces a timeline whose months form the contiguous ascending range from
the earliest to the latest (deduplicated) event month — zero-activity months
included with counters that count the (zero) events of that month — and for
zero events the timeline is empty rather than an error. -/
theorem timeline_contiguous_months (evs : List Event) :
    (evs ≠ [] →
      ((normalizeEvents evs).1 ≠ [] ∧
        ((normalizeEvents evs).2.map (fun b => b.month)
          = List.range' (minMonthIdx (normalizeEvents evs).1)
              (maxMonthIdx (normalizeEvents evs).1 + 1
                - minMonthIdx (normalizeEvents evs).1)) ∧
        (∀ e ∈ (normalizeEvents evs).1,
          minMonthIdx (normalizeEvents evs).1 ≤ monthIdx e ∧
            monthIdx e ≤ maxMonthIdx (normalizeEvents evs).1) ∧
        (∀ m : Nat, minMonthIdx (normalizeEvents evs).1 ≤ m →
          m ≤ maxMonthIdx (normalizeEvents evs).1 →
          ∃ b ∈ (normalizeEvents evs).2, b.month = m ∧
            ∀ s : EvSource,
              b.counts.get s = countSrcMonth ((normalizeEvents evs).1) m s) ∧
        (∀ b ∈ (normalizeEvents evs).2, ∀ s : EvSource,
          b.counts.get s = countSrcMonth ((normalizeEvents evs).1) b.month s))) ∧
      (normalizeEvents ([] : List Event)).2 = [] := by
  refine ⟨fun h => ?_, rfl⟩
  have hne : dedupe evs ≠ [] := dedupe_ne_nil evs h
  have hp := mkTimeline_props (dedupe evs) hne
  exact ⟨hne, hp.1, fun e he => monthIdx_bounds (dedupe evs) e he, hp.2.1, hp.2.2⟩

/-- Witness for C5 at two concrete events two months apart. -/
theorem timeline_contiguous_months_witness :
    (normalizeEvents
        [⟨EvSource.github, "1", 2024, 1, 15, "t1", "org/repoA", none, none⟩,
         ⟨EvSource.issue_tracker, "3", 2024, 3, 2, "t2", "", none, none⟩]).2.map
        (fun b => b.month)
      = List.range'
          (minMonthIdx (normalizeEvents
            [⟨EvSource.github, "1", 2024, 1, 15, "t1", "org/repoA", none, none⟩,
             ⟨EvSource.issue_tracker, "3", 2024, 3, 2, "t2", "", none, none⟩]).1)
          (maxMonthIdx (normalizeEvents
            [⟨EvSource.github, "1", 2024, 1, 15, "t1", "org/repoA", none, none⟩,
             ⟨EvSource.issue_tracker, "3", 2024, 3, 2, "t2", "", none, none⟩]).1 + 1
            - minMonthIdx (normalizeEvents
              [⟨EvSource.github, "1", 2024, 1, 15, "t1", "org/repoA", none, none⟩,
               ⟨EvSource.issue_tracker, "3", 2024, 3, 2, "t2", "", none, none⟩]).1) :=
  ((timeline_contiguous_months
      [⟨EvSource.github, "1", 2024, 1, 15, "t1", "org/repoA", none, none⟩,
       ⟨EvSource.issue_tracker, "3", 2024, 3, 2, "t2", "", none, none⟩]).1
    (by decide)).2.1

/-! Helper lemmas for summing per-month counters. -/

theorem sum_map_zero_nat (ms : List Nat) : (ms.map (fun _ => (0 : Nat))).sum = 0 := by
  induction ms with
  | nil => rfl
  | cons x ms ih => simp [ih]

theorem sum_map_add_distrib (ms : List Nat) (f g : Nat → Nat) :
    (ms.map (fun m => f m + g m)).sum = (ms.map f).sum + (ms.map g).sum := by
  induction ms with
  | nil => rfl
  | cons x ms ih =>
    simp only [List.map_cons, List.sum_cons, ih]
    omega

theorem sum_indicator_zero (ms : List Nat) (x : Nat) (hx : x ∉ ms) :
    (ms.map (fun m => if x = m then (1 : Nat) else 0)).sum = 0 := by
  induction ms with
  | nil => rfl
  | cons y ms ih =>
    have hxy : x ≠ y := fun h => hx (h ▸ List.mem_cons_self y ms)
    have hxm : x ∉ ms := fun h => hx (List.mem_cons_of_mem y h)
    simp [hxy, ih hxm]

theorem sum_indicator_one (ms : List Nat) (x : Nat) (hnd : ms.Nodup) (hx : x ∈ ms) :
    (ms.map (fun m => if x = m then (1 : Nat) else 0)).sum = 1 := by
  induction ms with
  | nil => cases hx
  | cons y ms ih =>
    rcases List.mem_cons.mp hx with rfl | hx2
    · have hnotin : x ∉ ms := (List.nodup_cons.mp hnd).1
      simp [sum_indicator_zero ms x hnotin]
    · have hxy : x ≠ y := fun h => (List.nodup_cons.mp hnd).1 (h ▸ hx2)
      simp [hxy, ih (List.nodup_cons.mp hnd).2 hx2]

theorem counts_partition (ms : List Nat) (s : EvSource) (hnd : ms.Nodup) :
    ∀ l : List Event, (∀ e ∈ l, e.source = s → monthIdx e ∈ ms) →
      (ms.map (fun m => countSrcMonth l m s)).sum = stats l s := by
  intro l
  induction l with
  | nil =>
    intro _
    have h0 : ∀ m ∈ ms, countSrcMonth [] m s = 0 := fun m _ => rfl
    rw [List.map_congr_left h0]
    simp [stats, sum_map_zero_nat]
  | cons e l ih =>
    intro hcov
    have hcovl : ∀ x ∈ l, x.source = s → monthIdx x ∈ ms :=
      fun x hx => hcov x (List.mem_cons_of_mem e hx)
    have hstep : ∀ m ∈ ms, countSrcMonth (e :: l) m s
        = countSrcMonth l m s + (if monthIdx e = m ∧ e.source = s then 1 else 0) := by
      intro m _
      simp only [countSrcMonth, List.countP_cons]
      congr 1
      by_cases h1 : monthIdx e = m
      · by_cases h2 : e.source = s
        · simp [h1, h2]
        · simp [h1, h2]
      · simp [h1]
    rw [List.map_congr_left hstep, sum_map_add_distrib, ih hcovl]
    have hsum : (ms.map (fun m => if monthIdx e = m ∧ e.source = s then (1 : Nat) else 0)).sum
        = if e.source = s then 1 else 0 := by
      by_cases h2 : e.source = s
      · have hmem : monthIdx e ∈ ms := hcov e (List.mem_cons_self e l) h2
        have heq : ∀ m ∈ ms, (if monthIdx e = m ∧ e.source = s then (1 : Nat) else 0)
            = if monthIdx e = m then 1 else 0 := by
          intro m _
          by_cases h1 : monthIdx e = m <;> simp [h1, h2]
        rw [List.map_congr_left heq, sum_indicator_one ms (monthIdx e) hnd hmem, if_pos h2]
      · have heq : ∀ m ∈ ms, (if monthIdx e = m ∧ e.source = s then (1 : Nat) else 0) = 0 := by
          intro m _
          simp [h2]
        rw [List.map_congr_left heq, if_neg h2]
        exact sum_map_zero_nat ms
    rw [hsum]
    simp only [stats, List.countP_cons]
    by_cases h2 : e.source = s
    · simp [stats, h2]
    · simp [stats, h2]

theorem mkTimeline_sum (l : List Event) (s : EvSource) :
    ((mkTimeline l).map (fun b => b.counts.get s)).sum = stats l s := by
  cases l with
  | nil => rfl
  | cons e rest =>
    have hmap : (mkTimeline (e :: rest)).map (fun b => b.counts.get s)
        = (List.range' (minMonthIdx (e :: rest))
            (maxMonthIdx (e :: rest) + 1 - minMonthIdx (e :: rest))).map
            (fun m => countSrcMonth (e :: rest) m s) := by
      show ((List.range _).map _).map _ = _
      rw [List.map_map, List.range'_eq_map_range, List.map_map]
      refine List.map_congr_left (fun k _ => ?_)
      exact countsFor_get _ _ s
    rw [hmap]
    have hnd : (List.range' (minMonthIdx (e :: rest))
        (maxMonthIdx (e :: rest) + 1 - minMonthIdx (e :: rest))).Nodup := by
      rw [List.range'_eq_map_range]
      exact (List.nodup_range _).map (fun a b h => by omega)
    refine counts_partition _ s hnd (e :: rest) (fun x hx _ => ?_)
    have hb := monthIdx_bounds (e :: rest) x hx
    have hm := monthIdx_bounds (e :: rest) e (List.mem_cons_self e rest)
    exact List.mem_range'_1.mpr ⟨hb.1, by omega⟩

/-- Claim C7: for every input event set and every source, the per-month
counters of that source in the normalized timeline sum to the `stats` entry
of that source over the deduplicated events. -/
theorem timeline_sum_eq_stats (evs : List Event) (s : EvSource) :
    (((normalizeEvents evs).2).map (fun b => b.counts.get s)).sum
      = stats ((normalizeEvents evs).1) s :=
  mkTimeline_sum (dedupe evs) s

/-! Helper lemma for the spec-modelled RepoSummary grouping. -/

theorem mem_firstDedupStr (xs : List String) (x : String) :
    x ∈ firstDedupStr xs ↔ x ∈ xs := by
  have main : ∀ acc : List String,
      (x ∈ xs.foldl (fun acc s => if s ∈ acc then acc else acc ++ [s]) acc
        ↔ x ∈ acc ∨ x ∈ xs) := by
    induction xs with
    | nil => intro acc; simp
    | cons y xs ih =>
      intro acc
      have hstep : x ∈ (if y ∈ acc then acc else acc ++ [y]) ↔ x ∈ acc ∨ x = y := by
        split
        case isTrue hin =>
          constructor
          · exact fun h => Or.inl h
          · rintro (h | rfl)
            · exact h
            · exact hin
        case isFalse hin => simp [List.mem_append]
      calc x ∈ ((y :: xs).foldl (fun acc s => if s ∈ acc then acc else acc ++ [s]) acc)
        ↔ x ∈ (if y ∈ acc then acc else acc ++ [y]) ∨ x ∈ xs := ih _
      _ ↔ (x ∈ acc ∨ x = y) ∨ x ∈ xs := by rw [hstep]
      _ ↔ x ∈ acc ∨ x ∈ y :: xs := by simp [List.mem_cons]; tauto
  have h := main []
  simpa [firstDedupStr] using h

/-- Claim C4: every entry of the spec-modelled RepoSummary grouping carries a
`prCount` equal to the number of GitHub events with that subtitle, its `org`
is the subtitle portion before the first slash, and every GitHub event's
subtitle is represented by an entry. -/
theorem repoSummaries_prCount (l : List Event) (r : RepoSummary)
    (hr : r ∈ repoSummaries l) :
    r.prCount = (l.filter (fun e =>
        decide (e.source = EvSource.github ∧ e.subtitle = r.name))).length ∧
      r.org = orgOf r.name ∧
      (∀ e ∈ l, e.source = EvSource.github →
        ∃ q ∈ repoSummaries l, q.name = e.subtitle) := by
  obtain ⟨s, _, hmap⟩ := List.mem_map.mp hr
  have hname : r.name = s := by rw [← hmap]
  have hpred : ∀ e ∈ l, (isGithubE e && e.subtitle == s)
      = decide (e.source = EvSource.github ∧ e.subtitle = r.name) := by
    intro e _
    rw [hname]
    by_cases h1 : e.source = EvSource.github <;> by_cases h2 : e.subtitle = s <;>
      simp [isGithubE, h1, h2]
  refine ⟨?_, ?_, ?_⟩
  · have hcount : r.prCount = l.countP (fun e => isGithubE e && e.subtitle == s) := by
      rw [← hmap]
    rw [hcount, List.countP_eq_length_filter, List.filter_congr hpred]
  · rw [← hmap]
  · intro e he hgh
    refine ⟨{ name := e.subtitle,
              prCount := l.countP (fun x => isGithubE x && x.subtitle == e.subtitle),
              org := orgOf e.subtitle }, ?_, rfl⟩
    refine List.mem_map.mpr ⟨e.subtitle, ?_, rfl⟩
    rw [mem_firstDedupStr]
    exact List.mem_map.mpr ⟨e, List.mem_filter.mpr ⟨he, by simp [isGithubE, hgh]⟩, rfl⟩

/-- Witness for C4 at a concrete event list with a repeated GitHub subtitle. -/
theorem repoSummaries_prCount_witness :
    ({ name := "org/repoA", prCount := 2, org := "org" } : RepoSummary).prCount
      = (([⟨EvSource.github, "1", 2024, 1, 15, "t1", "org/repoA", none, none⟩,
           ⟨EvSource.github, "2", 2024, 1, 20, "t2", "org/repoA", none, none⟩,
           ⟨EvSource.issue_tracker, "3", 2024, 2, 1, "t3", "", none, none⟩] : List Event).filter
          (fun e => decide (e.source = EvSource.github ∧
            e.subtitle = ({ name := "org/repoA", prCount := 2, org := "org" } : RepoSummary).name))).length :=
  (repoSummaries_prCount
    [⟨EvSource.github, "1", 2024, 1, 15, "t1", "org/repoA", none, none⟩,
     ⟨EvSource.github, "2", 2024, 1, 20, "t2", "org/repoA", none, none⟩,
     ⟨EvSource.issue_tracker, "3", 2024, 2, 1, "t3", "", none, none⟩]
    { name := "org/repoA", prCount := 2, org := "org" } (by decide)).1
